import Mathlib

/-!
# Zero-based budgeting ledger: embedding of `main.go`

The ledger of `main.go` is embedded as pure functions over lists.  The Go
`float64` amounts are taken as exact rational numbers, month, source and
category are strings, and the slice `app.Budgets` is a list.  Every `for ...
range` loop with an early `return` becomes a structural recursion that stops at
the first budget whose month matches.

`SaveData` only writes the file named by `FileName` and leaves `app.Budgets`
untouched.  On a ledger of numbers it succeeds, so a handler that reaches it
returns the in-memory application state and the text put on the status label.
`json.MarshalIndent` refuses a value that is not a number, and `SaveData` then
panics (lines 57-60) before any status text is set.

`strconv.ParseFloat` is a library function and is passed to the handlers as a
parameter.  It answers in one of three ways: with an error, with a finite value
(an exact rational here), or, for texts such as "NaN" and "Inf", with a value
that is not a number and no error.
-/

namespace ZeroBasedBudget

/-- Income line item (`type Income struct`). -/
structure Income where
  Source : String
  Amount : ℚ
  deriving DecidableEq

/-- Expense line item (`type Expense struct`). -/
structure Expense where
  Category : String
  BudgetedAmount : ℚ
  ActualAmount : ℚ
  deriving DecidableEq

/-- One month of the ledger (`type Budget struct`). -/
structure Budget where
  Month : String
  Incomes : List Income
  Expenses : List Expense
  Savings : ℚ
  Balance : ℚ
  deriving DecidableEq

/-- Application state (`type BudgetApp struct`). -/
structure BudgetApp where
  FileName : String
  Budgets : List Budget
  deriving DecidableEq

/-- State of `main` after `LoadData` found no file: `app.Budgets = []Budget{}`. -/
def emptyApp (fileName : String) : BudgetApp :=
  { FileName := fileName, Budgets := [] }

/-- Scan of `AddBudget` (lines 68-72): is there a budget with this month? -/
def monthExists : List Budget → String → Bool
  | [], _ => false
  | budget :: rest, month => if budget.Month = month then true else monthExists rest month

/-- The zeroed budget built by `AddBudget` (lines 73-79). -/
def newBudget (month : String) : Budget :=
  { Month := month, Incomes := [], Expenses := [], Savings := 0, Balance := 0 }

/-- Method `AddBudget` (lines 67-81). -/
def BudgetApp.AddBudget (app : BudgetApp) (month : String) : BudgetApp :=
  if monthExists app.Budgets month then app
  else { app with Budgets := app.Budgets ++ [newBudget month] }

/-- Accumulation loop of lines 87-90: `totalIncome += income.Amount` from `0.0`. -/
def totalIncome (incomes : List Income) : ℚ :=
  incomes.foldl (fun acc income => acc + income.Amount) 0

/-- Accumulation loop of lines 91-94: `totalExpenses += expense.ActualAmount` from `0.0`. -/
def totalExpenses (expenses : List Expense) : ℚ :=
  expenses.foldl (fun acc expense => acc + expense.ActualAmount) 0

/-- Loop of `Recalculate` (lines 85-98): the first budget with the month gets
its balance overwritten, then the method returns. -/
def recalculateLoop : List Budget → String → List Budget
  | [], _ => []
  | budget :: rest, month =>
    if budget.Month = month then
      { budget with
        Balance := totalIncome budget.Incomes - totalExpenses budget.Expenses - budget.Savings }
        :: rest
    else budget :: recalculateLoop rest month

/-- Method `Recalculate` (lines 84-99). -/
def BudgetApp.Recalculate (app : BudgetApp) (month : String) : BudgetApp :=
  { app with Budgets := recalculateLoop app.Budgets month }

/-- Text set on the status label when no budget has the requested month. -/
def notFoundMessage : String := "Budget for this month does not exist"

/-- Loop of the income handler up to the `append` (lines 149-151): the first
budget with the month gets the income appended; `none` when the loop runs to
its end without a match. -/
def appendIncomeLoop : List Budget → String → Income → Option (List Budget)
  | [], _, _ => none
  | budget :: rest, month, income =>
    if budget.Month = month then
      some ({ budget with Incomes := budget.Incomes ++ [income] } :: rest)
    else (appendIncomeLoop rest month income).map (fun bs => budget :: bs)

/-- Loop of the expense handler up to the `append` (lines 180-182). -/
def appendExpenseLoop : List Budget → String → Expense → Option (List Budget)
  | [], _, _ => none
  | budget :: rest, month, expense =>
    if budget.Month = month then
      some ({ budget with Expenses := budget.Expenses ++ [expense] } :: rest)
    else (appendExpenseLoop rest month expense).map (fun bs => budget :: bs)

/-- Part of the income handler after validation (lines 149-158): append to
the first matching budget, call `Recalculate`, report; otherwise report that
the budget does not exist. -/
def BudgetApp.AppendIncome (app : BudgetApp) (month source : String) (amountValue : ℚ) :
    BudgetApp × String :=
  match appendIncomeLoop app.Budgets month { Source := source, Amount := amountValue } with
  | some bs => (({ app with Budgets := bs } : BudgetApp).Recalculate month, "Income added to " ++ month)
  | none => (app, notFoundMessage)

/-- Part of the expense handler after validation (lines 180-189). -/
def BudgetApp.AppendExpense (app : BudgetApp) (month category : String)
    (budgetedValue actualValue : ℚ) : BudgetApp × String :=
  match appendExpenseLoop app.Budgets month
      { Category := category, BudgetedAmount := budgetedValue, ActualAmount := actualValue } with
  | some bs => (({ app with Budgets := bs } : BudgetApp).Recalculate month, "Expense added to " ++ month)
  | none => (app, notFoundMessage)

/-- Answer of `strconv.ParseFloat(s, 64)`: `invalid` when `err != nil`,
`finite value` when `err == nil` and the value is a number, `notFinite` when
`err == nil` and the value is NaN or an infinity. -/
inductive ParseFloatResult where
  | invalid
  | finite (value : ℚ)
  | notFinite
  deriving DecidableEq

/-- How a button handler ends: `status app text` when it returns with the
ledger `app` in memory after `statusLabel.SetText(text)`; `savePanic` when an
item whose amount is not a number has been appended to the first budget of the
month, `Recalculate` has run and `SaveData` panics in `json.MarshalIndent`
(lines 57-60), so that no status text is set. -/
inductive Outcome where
  | status (app : BudgetApp) (text : String)
  | savePanic
  deriving DecidableEq

/-- Handler of the "Add Income" button (lines 136-159) on the three entry
texts; `parseFloat` stands for `strconv.ParseFloat(s, 64)`.  The check of line
145 looks at `err` only, so a parsed value that is not a number goes on to the
append loop. -/
def addIncomeHandler (parseFloat : String → ParseFloatResult) (app : BudgetApp)
    (month source amount : String) : Outcome :=
  if month = "" ∨ source = "" ∨ amount = "" then
    Outcome.status app "Please fill in all income fields"
  else
    match parseFloat amount with
    | .invalid => Outcome.status app "Invalid income amount"
    | .finite amountValue =>
      Outcome.status (app.AppendIncome month source amountValue).1
        (app.AppendIncome month source amountValue).2
    | .notFinite =>
      if monthExists app.Budgets month then Outcome.savePanic
      else Outcome.status app notFoundMessage

/-- Handler of the "Add Expense" button (lines 161-190) on the four entry
texts.  The checks of lines 171 and 176 look at `err` only, so a budgeted or
actual value that is not a number goes on to the append loop. -/
def addExpenseHandler (parseFloat : String → ParseFloatResult) (app : BudgetApp)
    (month category budgeted actual : String) : Outcome :=
  if month = "" ∨ category = "" ∨ budgeted = "" ∨ actual = "" then
    Outcome.status app "Please fill in all expense fields"
  else
    match parseFloat budgeted with
    | .invalid => Outcome.status app "Invalid budgeted amount"
    | .finite budgetedValue =>
      match parseFloat actual with
      | .invalid => Outcome.status app "Invalid actual amount"
      | .finite actualValue =>
        Outcome.status (app.AppendExpense month category budgetedValue actualValue).1
          (app.AppendExpense month category budgetedValue actualValue).2
      | .notFinite =>
        if monthExists app.Budgets month then Outcome.savePanic
        else Outcome.status app notFoundMessage
    | .notFinite =>
      match parseFloat actual with
      | .invalid => Outcome.status app "Invalid actual amount"
      | _ =>
        if monthExists app.Budgets month then Outcome.savePanic
        else Outcome.status app notFoundMessage

/-- Month lookup as every loop of `main.go` does it: the first budget whose
month matches (lines 198-199 of the view handler). -/
def findBudget : List Budget → String → Option Budget
  | [], _ => none
  | budget :: rest, month => if budget.Month = month then some budget else findBudget rest month

/-- One append request, after validation. -/
inductive Call where
  | income (month source : String) (amountValue : ℚ)
  | expense (month category : String) (budgetedValue actualValue : ℚ)

/-- Effect of one append request on the application state. -/
def Call.run (app : BudgetApp) : Call → BudgetApp
  | .income month source amountValue => (app.AppendIncome month source amountValue).1
  | .expense month category budgetedValue actualValue =>
    (app.AppendExpense month category budgetedValue actualValue).1

/-- A finite sequence of append requests, performed in order. -/
def runCalls (app : BudgetApp) (calls : List Call) : BudgetApp :=
  calls.foldl Call.run app

/-- Amounts of the incomes that a call sequence appends to `month`, in order. -/
def incomeAmountsFor (month : String) : List Call → List ℚ
  | [] => []
  | .income m _ amountValue :: rest =>
    if m = month then amountValue :: incomeAmountsFor month rest else incomeAmountsFor month rest
  | .expense _ _ _ _ :: rest => incomeAmountsFor month rest

/-- Actual amounts of the expenses that a call sequence appends to `month`, in order. -/
def expenseActualsFor (month : String) : List Call → List ℚ
  | [] => []
  | .income _ _ _ :: rest => expenseActualsFor month rest
  | .expense m _ _ actualValue :: rest =>
    if m = month then actualValue :: expenseActualsFor month rest
    else expenseActualsFor month rest

/-- The four ledger operations, with their arguments. -/
inductive Op where
  | addBudget (month : String)
  | appendIncome (month source : String) (amountValue : ℚ)
  | appendExpense (month category : String) (budgetedValue actualValue : ℚ)
  | recalculate (month : String)

/-- Effect of one ledger operation. -/
def Op.run (app : BudgetApp) : Op → BudgetApp
  | .addBudget month => app.AddBudget month
  | .appendIncome month source amountValue => (app.AppendIncome month source amountValue).1
  | .appendExpense month category budgetedValue actualValue =>
    (app.AppendExpense month category budgetedValue actualValue).1
  | .recalculate month => app.Recalculate month

/-- A finite sequence of ledger operations, performed in order. -/
def runOps (app : BudgetApp) (ops : List Op) : BudgetApp :=
  ops.foldl Op.run app

/-- At most one budget per month. -/
def UniqueMonths (app : BudgetApp) : Prop :=
  (app.Budgets.map Budget.Month).Nodup

instance (app : BudgetApp) : Decidable (UniqueMonths app) := by
  unfold UniqueMonths; infer_instance

/-! ## Sample data -/

/-- A ledger with two budgets of the same month, as a hand-edited file can hold. -/
def sampleApp : BudgetApp :=
  { FileName := "budget.json",
    Budgets :=
      [ { Month := "2024-02", Incomes := [], Expenses := [], Savings := 0, Balance := 0 },
        { Month := "2024-01", Incomes := [{ Source := "Salary", Amount := 3000 }],
          Expenses := [{ Category := "Rent", BudgetedAmount := 1200, ActualAmount := 1250 }],
          Savings := 100, Balance := 7 },
        { Month := "2024-01", Incomes := [], Expenses := [], Savings := 0, Balance := 5 } ] }

/-- A ledger with one budget per month. -/
def sampleUniqueApp : BudgetApp :=
  { FileName := "budget.json",
    Budgets :=
      [ { Month := "2024-02", Incomes := [], Expenses := [], Savings := 0, Balance := 0 },
        { Month := "2024-01", Incomes := [{ Source := "Salary", Amount := 3000 }],
          Expenses := [{ Category := "Rent", BudgetedAmount := 1200, ActualAmount := 1250 }],
          Savings := 100, Balance := 7 } ] }

/-- The ledger after `AddBudget("2024-01")` on the empty ledger. -/
def sampleJanuary : BudgetApp :=
  (emptyApp "budget.json").AddBudget "2024-01"

/-- A stand-in for `strconv.ParseFloat` that knows four texts and answers on
them, on "abc" and on the empty text as `strconv.ParseFloat` does. -/
def sampleParseFloat (s : String) : ParseFloatResult :=
  if s = "3000" then .finite 3000
  else if s = "12.5" then .finite (25 / 2)
  else if s = "NaN" ∨ s = "Inf" then .notFinite
  else .invalid

/-! ## Shared lemmas -/

theorem foldl_add_eq_sum {α : Type} (f : α → ℚ) (l : List α) (acc : ℚ) :
    l.foldl (fun a x => a + f x) acc = acc + (l.map f).sum := by
  induction l generalizing acc with
  | nil => simp
  | cons x xs ih => simp [ih, add_assoc]

theorem totalIncome_eq_sum (incomes : List Income) :
    totalIncome incomes = (incomes.map Income.Amount).sum := by
  simp [totalIncome, foldl_add_eq_sum Income.Amount]

theorem totalExpenses_eq_sum (expenses : List Expense) :
    totalExpenses expenses = (expenses.map Expense.ActualAmount).sum := by
  simp [totalExpenses, foldl_add_eq_sum Expense.ActualAmount]

theorem monthExists_eq_true_iff (bs : List Budget) (month : String) :
    monthExists bs month = true ↔ ∃ b ∈ bs, b.Month = month := by
  induction bs with
  | nil => simp [monthExists]
  | cons b rest ih =>
    by_cases h : b.Month = month
    · simp [monthExists, h]
    · simp [monthExists, h, ih]

theorem monthExists_eq_false_iff (bs : List Budget) (month : String) :
    monthExists bs month = false ↔ ∀ b ∈ bs, b.Month ≠ month := by
  induction bs with
  | nil => simp [monthExists]
  | cons b rest ih =>
    by_cases h : b.Month = month
    · simp [monthExists, h]
    · simp [monthExists, h, ih]

theorem recalculateLoop_absent (bs : List Budget) (month : String)
    (h : ∀ b ∈ bs, b.Month ≠ month) : recalculateLoop bs month = bs := by
  induction bs with
  | nil => rfl
  | cons b rest ih =>
    have hb : b.Month ≠ month := h b (List.mem_cons_self _ _)
    have hrest : ∀ x ∈ rest, x.Month ≠ month := fun x hx => h x (List.mem_cons_of_mem _ hx)
    simp [recalculateLoop, hb, ih hrest]

theorem recalculateLoop_months (bs : List Budget) (month : String) :
    (recalculateLoop bs month).map Budget.Month = bs.map Budget.Month := by
  induction bs with
  | nil => rfl
  | cons b rest ih =>
    by_cases h : b.Month = month
    · simp [recalculateLoop, h]
    · simp [recalculateLoop, h, ih]

theorem appendIncomeLoop_absent (bs : List Budget) (month : String) (income : Income)
    (h : ∀ b ∈ bs, b.Month ≠ month) : appendIncomeLoop bs month income = none := by
  induction bs with
  | nil => rfl
  | cons b rest ih =>
    have hb : b.Month ≠ month := h b (List.mem_cons_self _ _)
    have hrest : ∀ x ∈ rest, x.Month ≠ month := fun x hx => h x (List.mem_cons_of_mem _ hx)
    simp [appendIncomeLoop, hb, ih hrest]

theorem appendExpenseLoop_absent (bs : List Budget) (month : String) (expense : Expense)
    (h : ∀ b ∈ bs, b.Month ≠ month) : appendExpenseLoop bs month expense = none := by
  induction bs with
  | nil => rfl
  | cons b rest ih =>
    have hb : b.Month ≠ month := h b (List.mem_cons_self _ _)
    have hrest : ∀ x ∈ rest, x.Month ≠ month := fun x hx => h x (List.mem_cons_of_mem _ hx)
    simp [appendExpenseLoop, hb, ih hrest]

/-- Every ledger with a budget for `month` splits at the first such budget. -/
theorem exists_first_of_present (bs : List Budget) (month : String)
    (h : ∃ b ∈ bs, b.Month = month) :
    ∃ pre b post, bs = pre ++ b :: post ∧ b.Month = month ∧ ∀ x ∈ pre, x.Month ≠ month := by
  induction bs with
  | nil => simp at h
  | cons b rest ih =>
    by_cases hb : b.Month = month
    · exact ⟨[], b, rest, rfl, hb, by simp⟩
    · have hrest : ∃ x ∈ rest, x.Month = month := by
        obtain ⟨x, hx, hxm⟩ := h
        rcases List.mem_cons.mp hx with rfl | hx
        · exact absurd hxm hb
        · exact ⟨x, hx, hxm⟩
      obtain ⟨pre, c, post, hsplit, hc, hpre⟩ := ih hrest
      refine ⟨b :: pre, c, post, by simp [hsplit], hc, ?_⟩
      intro x hx
      rcases List.mem_cons.mp hx with rfl | hx
      · exact hb
      · exact hpre x hx

theorem recalculateLoop_split (pre post : List Budget) (b : Budget) (month : String)
    (hb : b.Month = month) (hpre : ∀ x ∈ pre, x.Month ≠ month) :
    recalculateLoop (pre ++ b :: post) month =
      pre ++ { b with
        Balance := totalIncome b.Incomes - totalExpenses b.Expenses - b.Savings } :: post := by
  induction pre with
  | nil => simp [recalculateLoop, hb]
  | cons p ps ih =>
    have hp : p.Month ≠ month := hpre p (List.mem_cons_self _ _)
    have hps : ∀ x ∈ ps, x.Month ≠ month := fun x hx => hpre x (List.mem_cons_of_mem _ hx)
    simp [recalculateLoop, hp, ih hps]

theorem appendIncomeLoop_split (pre post : List Budget) (b : Budget) (month : String)
    (income : Income) (hb : b.Month = month) (hpre : ∀ x ∈ pre, x.Month ≠ month) :
    appendIncomeLoop (pre ++ b :: post) month income =
      some (pre ++ { b with Incomes := b.Incomes ++ [income] } :: post) := by
  induction pre with
  | nil => simp [appendIncomeLoop, hb]
  | cons p ps ih =>
    have hp : p.Month ≠ month := hpre p (List.mem_cons_self _ _)
    have hps : ∀ x ∈ ps, x.Month ≠ month := fun x hx => hpre x (List.mem_cons_of_mem _ hx)
    simp [appendIncomeLoop, hp, ih hps]

theorem appendExpenseLoop_split (pre post : List Budget) (b : Budget) (month : String)
    (expense : Expense) (hb : b.Month = month) (hpre : ∀ x ∈ pre, x.Month ≠ month) :
    appendExpenseLoop (pre ++ b :: post) month expense =
      some (pre ++ { b with Expenses := b.Expenses ++ [expense] } :: post) := by
  induction pre with
  | nil => simp [appendExpenseLoop, hb]
  | cons p ps ih =>
    have hp : p.Month ≠ month := hpre p (List.mem_cons_self _ _)
    have hps : ∀ x ∈ ps, x.Month ≠ month := fun x hx => hpre x (List.mem_cons_of_mem _ hx)
    simp [appendExpenseLoop, hp, ih hps]

theorem findBudget_split (pre post : List Budget) (b : Budget) (month : String)
    (hb : b.Month = month) (hpre : ∀ x ∈ pre, x.Month ≠ month) :
    findBudget (pre ++ b :: post) month = some b := by
  induction pre with
  | nil => simp [findBudget, hb]
  | cons p ps ih =>
    have hp : p.Month ≠ month := hpre p (List.mem_cons_self _ _)
    have hps : ∀ x ∈ ps, x.Month ≠ month := fun x hx => hpre x (List.mem_cons_of_mem _ hx)
    simp [findBudget, hp, ih hps]

/-- Result of the income path on a ledger split at the first budget of the month. -/
theorem AppendIncome_split (fileName : String) (pre post : List Budget) (b : Budget)
    (month source : String) (amountValue : ℚ)
    (hb : b.Month = month) (hpre : ∀ x ∈ pre, x.Month ≠ month) :
    BudgetApp.AppendIncome { FileName := fileName, Budgets := pre ++ b :: post }
        month source amountValue =
      ({ FileName := fileName,
         Budgets := pre ++
           { b with
             Incomes := b.Incomes ++ [{ Source := source, Amount := amountValue }],
             Balance := totalIncome (b.Incomes ++ [{ Source := source, Amount := amountValue }])
               - totalExpenses b.Expenses - b.Savings } :: post },
       "Income added to " ++ month) := by
  simp only [BudgetApp.AppendIncome, appendIncomeLoop_split pre post b month _ hb hpre,
    BudgetApp.Recalculate]
  rw [recalculateLoop_split pre post _ month (by exact hb) hpre]

/-- Result of the expense path on a ledger split at the first budget of the month. -/
theorem AppendExpense_split (fileName : String) (pre post : List Budget) (b : Budget)
    (month category : String) (budgetedValue actualValue : ℚ)
    (hb : b.Month = month) (hpre : ∀ x ∈ pre, x.Month ≠ month) :
    BudgetApp.AppendExpense { FileName := fileName, Budgets := pre ++ b :: post }
        month category budgetedValue actualValue =
      ({ FileName := fileName,
         Budgets := pre ++
           { b with
             Expenses := b.Expenses ++ [(⟨category, budgetedValue, actualValue⟩ : Expense)],
             Balance := totalIncome b.Incomes
               - totalExpenses (b.Expenses ++ [(⟨category, budgetedValue, actualValue⟩ : Expense)])
               - b.Savings } :: post },
       "Expense added to " ++ month) := by
  simp only [BudgetApp.AppendExpense, appendExpenseLoop_split pre post b month _ hb hpre,
    BudgetApp.Recalculate]
  rw [recalculateLoop_split pre post _ month (by exact hb) hpre]

theorem AppendIncome_absent (app : BudgetApp) (month source : String) (amountValue : ℚ)
    (h : ∀ b ∈ app.Budgets, b.Month ≠ month) :
    app.AppendIncome month source amountValue = (app, notFoundMessage) := by
  simp [BudgetApp.AppendIncome, appendIncomeLoop_absent app.Budgets month _ h]

theorem AppendExpense_absent (app : BudgetApp) (month category : String)
    (budgetedValue actualValue : ℚ) (h : ∀ b ∈ app.Budgets, b.Month ≠ month) :
    app.AppendExpense month category budgetedValue actualValue = (app, notFoundMessage) := by
  simp [BudgetApp.AppendExpense, appendExpenseLoop_absent app.Budgets month _ h]

theorem findBudget_isSome_of_present (bs : List Budget) (month : String)
    (h : ∃ b ∈ bs, b.Month = month) : ∃ b, findBudget bs month = some b := by
  obtain ⟨pre, b, post, hsplit, hb, hpre⟩ := exists_first_of_present bs month h
  exact ⟨b, by rw [hsplit]; exact findBudget_split pre post b month hb hpre⟩

theorem AppendIncome_months (app : BudgetApp) (month source : String) (amountValue : ℚ) :
    (app.AppendIncome month source amountValue).1.Budgets.map Budget.Month =
      app.Budgets.map Budget.Month := by
  by_cases h : ∃ b ∈ app.Budgets, b.Month = month
  · obtain ⟨pre, b, post, hsplit, hb, hpre⟩ := exists_first_of_present app.Budgets month h
    obtain ⟨fileName, bs⟩ := app
    simp only at hsplit
    subst hsplit
    rw [AppendIncome_split fileName pre post b month source amountValue hb hpre]
    simp
  · have h2 : ∀ b ∈ app.Budgets, b.Month ≠ month := fun b hb hm => h ⟨b, hb, hm⟩
    rw [AppendIncome_absent app month source amountValue h2]

theorem AppendExpense_months (app : BudgetApp) (month category : String)
    (budgetedValue actualValue : ℚ) :
    (app.AppendExpense month category budgetedValue actualValue).1.Budgets.map Budget.Month =
      app.Budgets.map Budget.Month := by
  by_cases h : ∃ b ∈ app.Budgets, b.Month = month
  · obtain ⟨pre, b, post, hsplit, hb, hpre⟩ := exists_first_of_present app.Budgets month h
    obtain ⟨fileName, bs⟩ := app
    simp only at hsplit
    subst hsplit
    rw [AppendExpense_split fileName pre post b month category budgetedValue actualValue hb hpre]
    simp
  · have h2 : ∀ b ∈ app.Budgets, b.Month ≠ month := fun b hb hm => h ⟨b, hb, hm⟩
    rw [AppendExpense_absent app month category budgetedValue actualValue h2]

theorem AddBudget_present (app : BudgetApp) (month : String)
    (h : ∃ b ∈ app.Budgets, b.Month = month) : app.AddBudget month = app := by
  have hm : monthExists app.Budgets month = true := (monthExists_eq_true_iff _ _).mpr h
  simp [BudgetApp.AddBudget, hm]

theorem AddBudget_absent (app : BudgetApp) (month : String)
    (h : ∀ b ∈ app.Budgets, b.Month ≠ month) :
    app.AddBudget month =
      { FileName := app.FileName, Budgets := app.Budgets ++ [newBudget month] } := by
  have hm : monthExists app.Budgets month = false := (monthExists_eq_false_iff _ _).mpr h
  simp [BudgetApp.AddBudget, hm]

theorem AddBudget_uniqueMonths (app : BudgetApp) (month : String) (h : UniqueMonths app) :
    UniqueMonths (app.AddBudget month) := by
  by_cases hp : ∃ b ∈ app.Budgets, b.Month = month
  · rw [AddBudget_present app month hp]; exact h
  · have h2 : ∀ b ∈ app.Budgets, b.Month ≠ month := fun b hb hm => hp ⟨b, hb, hm⟩
    rw [AddBudget_absent app month h2]
    unfold UniqueMonths at *
    simp only [List.map_append, List.map_cons, List.map_nil, newBudget]
    refine List.Nodup.append h (List.nodup_singleton _) ?_
    intro x hx hx2
    rw [List.mem_singleton] at hx2
    subst hx2
    obtain ⟨b, hb, hbm⟩ := List.mem_map.mp hx
    exact h2 b hb hbm

theorem Op_run_uniqueMonths (app : BudgetApp) (op : Op) (h : UniqueMonths app) :
    UniqueMonths (op.run app) := by
  cases op with
  | addBudget month => exact AddBudget_uniqueMonths app month h
  | appendIncome month source amountValue =>
    unfold UniqueMonths at *
    simp only [Op.run]
    rw [AppendIncome_months]; exact h
  | appendExpense month category budgetedValue actualValue =>
    unfold UniqueMonths at *
    simp only [Op.run]
    rw [AppendExpense_months]; exact h
  | recalculate month =>
    unfold UniqueMonths at *
    simp only [Op.run, BudgetApp.Recalculate]
    rw [recalculateLoop_months]; exact h

theorem runOps_uniqueMonths (ops : List Op) (app : BudgetApp) (h : UniqueMonths app) :
    UniqueMonths (runOps app ops) := by
  induction ops generalizing app with
  | nil => exact h
  | cons op rest ih =>
    simp only [runOps, List.foldl_cons]
    exact ih (op.run app) (Op_run_uniqueMonths app op h)

theorem later_months_ne (pre post : List Budget) (b : Budget)
    (h : ((pre ++ b :: post).map Budget.Month).Nodup) : ∀ x ∈ post, x.Month ≠ b.Month := by
  intro x hx hxm
  rw [List.map_append, List.map_cons] at h
  have h2 := (List.nodup_cons.mp (List.Nodup.of_append_right h)).1
  exact h2 (hxm ▸ List.mem_map_of_mem Budget.Month hx)

/-- A ledger holding one budget of month `m` whose balance is up to date keeps
that shape under any sequence of append requests, and its income and expense
sequences grow by exactly the requests addressed to `m`. -/
theorem runCalls_single (fileName m : String) (calls : List Call) (b : Budget)
    (hb : b.Month = m)
    (hbal : b.Balance = totalIncome b.Incomes - totalExpenses b.Expenses - b.Savings) :
    ∃ b2, (runCalls { FileName := fileName, Budgets := [b] } calls).Budgets = [b2] ∧
      b2.Month = m ∧ b2.Savings = b.Savings ∧
      b2.Incomes.map Income.Amount = b.Incomes.map Income.Amount ++ incomeAmountsFor m calls ∧
      b2.Expenses.map Expense.ActualAmount =
        b.Expenses.map Expense.ActualAmount ++ expenseActualsFor m calls ∧
      b2.Balance = totalIncome b2.Incomes - totalExpenses b2.Expenses - b2.Savings := by
  induction calls generalizing b with
  | nil => exact ⟨b, rfl, hb, rfl, by simp [incomeAmountsFor], by simp [expenseActualsFor], hbal⟩
  | cons call rest ih =>
    cases call with
    | income month source amountValue =>
      by_cases hm : month = m
      · subst hm
        have hstep := AppendIncome_split fileName [] [] b month source amountValue hb (by simp)
        simp only [List.nil_append] at hstep
        obtain ⟨b2, h1, h2, h3, h4, h5, h6⟩ := ih
          { b with
            Incomes := b.Incomes ++ [{ Source := source, Amount := amountValue }],
            Balance := totalIncome (b.Incomes ++ [{ Source := source, Amount := amountValue }])
              - totalExpenses b.Expenses - b.Savings } hb rfl
        refine ⟨b2, ?_, h2, h3, ?_, ?_, h6⟩
        · simp only [runCalls, List.foldl_cons, Call.run, hstep]
          exact h1
        · simp only [incomeAmountsFor, if_true]
          rw [h4]; simp
        · simp only [expenseActualsFor]
          exact h5
      · have habs : ∀ x ∈ ({ FileName := fileName, Budgets := [b] } : BudgetApp).Budgets,
            x.Month ≠ month := by
          intro x hx
          simp only [List.mem_singleton] at hx
          subst hx
          rw [hb]; exact fun h => hm h.symm
        have hstep := AppendIncome_absent _ month source amountValue habs
        obtain ⟨b2, h1, h2, h3, h4, h5, h6⟩ := ih b hb hbal
        refine ⟨b2, ?_, h2, h3, ?_, ?_, h6⟩
        · simp only [runCalls, List.foldl_cons, Call.run, hstep]
          exact h1
        · simp only [incomeAmountsFor, if_neg hm]
          exact h4
        · simp only [expenseActualsFor]
          exact h5
    | expense month category budgetedValue actualValue =>
      by_cases hm : month = m
      · subst hm
        have hstep := AppendExpense_split fileName [] [] b month category budgetedValue
          actualValue hb (by simp)
        simp only [List.nil_append] at hstep
        obtain ⟨b2, h1, h2, h3, h4, h5, h6⟩ := ih
          { b with
            Expenses := b.Expenses ++ [(⟨category, budgetedValue, actualValue⟩ : Expense)],
            Balance := totalIncome b.Incomes
              - totalExpenses
                  (b.Expenses ++ [(⟨category, budgetedValue, actualValue⟩ : Expense)])
              - b.Savings } hb rfl
        refine ⟨b2, ?_, h2, h3, ?_, ?_, h6⟩
        · simp only [runCalls, List.foldl_cons, Call.run, hstep]
          exact h1
        · simp only [incomeAmountsFor]
          exact h4
        · simp only [expenseActualsFor, if_true]
          rw [h5]; simp
      · have habs : ∀ x ∈ ({ FileName := fileName, Budgets := [b] } : BudgetApp).Budgets,
            x.Month ≠ month := by
          intro x hx
          simp only [List.mem_singleton] at hx
          subst hx
          rw [hb]; exact fun h => hm h.symm
        have hstep := AppendExpense_absent _ month category budgetedValue actualValue habs
        obtain ⟨b2, h1, h2, h3, h4, h5, h6⟩ := ih b hb hbal
        refine ⟨b2, ?_, h2, h3, ?_, ?_, h6⟩
        · simp only [runCalls, List.foldl_cons, Call.run, hstep]
          exact h1
        · simp only [incomeAmountsFor]
          exact h4
        · simp only [expenseActualsFor, if_neg hm]
          exact h5

/-! ## Recalculate -/

/-- C2: for every ledger and every month `m` present in it, after
`Recalculate(m)` the budget found for `m` (the first one with that month) keeps
its month, incomes, expenses and savings, and its balance is the sum of its
income amounts minus the sum of its expenses' actual amounts minus its savings;
budgeted amounts do not occur.  When the ledger holds at most one budget per
month, this is the only budget of month `m`. -/
theorem Recalculate_balance (app : BudgetApp) (m : String)
    (h : ∃ b ∈ app.Budgets, b.Month = m) :
    (∃ b0 b, findBudget app.Budgets m = some b0 ∧
      findBudget (app.Recalculate m).Budgets m = some b ∧
      b.Month = m ∧ b.Incomes = b0.Incomes ∧ b.Expenses = b0.Expenses ∧
      b.Savings = b0.Savings ∧
      b.Balance = (b.Incomes.map Income.Amount).sum
        - (b.Expenses.map Expense.ActualAmount).sum - b.Savings) ∧
    (UniqueMonths app → ∀ b ∈ (app.Recalculate m).Budgets, b.Month = m →
      b.Balance = (b.Incomes.map Income.Amount).sum
        - (b.Expenses.map Expense.ActualAmount).sum - b.Savings) := by
  obtain ⟨pre, b0, post, hsplit, hb, hpre⟩ := exists_first_of_present app.Budgets m h
  have hrec : (app.Recalculate m).Budgets = pre ++
      { b0 with
        Balance := totalIncome b0.Incomes - totalExpenses b0.Expenses - b0.Savings } :: post := by
    simp only [BudgetApp.Recalculate]
    rw [hsplit, recalculateLoop_split pre post b0 m hb hpre]
  constructor
  · refine ⟨b0, { b0 with
      Balance := totalIncome b0.Incomes - totalExpenses b0.Expenses - b0.Savings }, ?_, ?_,
      hb, rfl, rfl, rfl, ?_⟩
    · rw [hsplit]; exact findBudget_split pre post b0 m hb hpre
    · rw [hrec]; exact findBudget_split pre post _ m hb hpre
    · simp only [totalIncome_eq_sum, totalExpenses_eq_sum]
  · intro hu b hmem hbm
    have hpost : ∀ x ∈ post, x.Month ≠ b0.Month := by
      apply later_months_ne pre post b0
      rw [← hsplit]; exact hu
    rw [hrec] at hmem
    rcases List.mem_append.mp hmem with hin | hin
    · exact absurd hbm (hpre b hin)
    · rcases List.mem_cons.mp hin with heq | hin
      · subst heq
        simp only [totalIncome_eq_sum, totalExpenses_eq_sum]
      · exact absurd (hbm.trans hb.symm) (hpost b hin)

theorem Recalculate_balance_witness :
    ((∃ b ∈ sampleApp.Budgets, b.Month = "2024-01") ∧
      ∃ b0 b, findBudget sampleApp.Budgets "2024-01" = some b0 ∧
        findBudget (sampleApp.Recalculate "2024-01").Budgets "2024-01" = some b ∧
        b.Month = "2024-01" ∧ b.Incomes = b0.Incomes ∧ b.Expenses = b0.Expenses ∧
        b.Savings = b0.Savings ∧
        b.Balance = (b.Incomes.map Income.Amount).sum
          - (b.Expenses.map Expense.ActualAmount).sum - b.Savings) ∧
    ((∃ b ∈ sampleUniqueApp.Budgets, b.Month = "2024-01") ∧ UniqueMonths sampleUniqueApp ∧
      ∀ b ∈ (sampleUniqueApp.Recalculate "2024-01").Budgets, b.Month = "2024-01" →
        b.Balance = (b.Incomes.map Income.Amount).sum
          - (b.Expenses.map Expense.ActualAmount).sum - b.Savings) :=
  ⟨⟨by decide, (Recalculate_balance sampleApp "2024-01" (by decide)).1⟩,
   ⟨by decide, by decide,
    (Recalculate_balance sampleUniqueApp "2024-01" (by decide)).2 (by decide)⟩⟩

/-- C9: for every ledger and every month `m` with no budget in it,
`Recalculate(m)` leaves the ledger exactly as it was. -/
theorem Recalculate_absent_noop (app : BudgetApp) (m : String)
    (h : ∀ b ∈ app.Budgets, b.Month ≠ m) : app.Recalculate m = app := by
  simp [BudgetApp.Recalculate, recalculateLoop_absent app.Budgets m h]

theorem Recalculate_absent_noop_witness :
    (∀ b ∈ sampleApp.Budgets, b.Month ≠ "2024-03") ∧
    sampleApp.Recalculate "2024-03" = sampleApp :=
  ⟨by decide, Recalculate_absent_noop sampleApp "2024-03" (by decide)⟩

/-! ## AddBudget -/

/-- C3: `AddBudget` is idempotent: applying `AddBudget(m)` twice gives the
same ledger as applying it once, and from a ledger with no budget for `m` the
result holds exactly one budget whose month is `m`. -/
theorem AddBudget_idempotent (app : BudgetApp) (m : String) :
    (app.AddBudget m).AddBudget m = app.AddBudget m ∧
    ((∀ b ∈ app.Budgets, b.Month ≠ m) →
      (app.AddBudget m).Budgets.countP (fun b => decide (b.Month = m)) = 1) := by
  constructor
  · by_cases hp : ∃ b ∈ app.Budgets, b.Month = m
    · rw [AddBudget_present app m hp, AddBudget_present app m hp]
    · have h2 : ∀ b ∈ app.Budgets, b.Month ≠ m := fun b hb hm => hp ⟨b, hb, hm⟩
      apply AddBudget_present
      rw [AddBudget_absent app m h2]
      exact ⟨newBudget m, by simp, rfl⟩
  · intro h
    rw [AddBudget_absent app m h]
    have h0 : app.Budgets.countP (fun b => decide (b.Month = m)) = 0 := by
      rw [List.countP_eq_zero]
      intro b hb
      simpa using h b hb
    simp [List.countP_append, h0, newBudget]

theorem AddBudget_idempotent_witness :
    (∀ b ∈ sampleApp.Budgets, b.Month ≠ "2024-03") ∧
    (sampleApp.AddBudget "2024-03").Budgets.countP (fun b => decide (b.Month = "2024-03")) = 1 :=
  ⟨by decide, (AddBudget_idempotent sampleApp "2024-03").2 (by decide)⟩

/-- C4: if some budget of the ledger has month `m` then `AddBudget(m)`
returns the ledger unchanged; otherwise the result is the ledger with one
budget appended at the end, of month `m`, with empty income and expense
sequences and zero savings and balance, the existing budgets being unchanged
and in their original order. -/
theorem AddBudget_spec (app : BudgetApp) (m : String) :
    ((∃ b ∈ app.Budgets, b.Month = m) → app.AddBudget m = app) ∧
    ((∀ b ∈ app.Budgets, b.Month ≠ m) →
      app.AddBudget m =
        { FileName := app.FileName,
          Budgets := app.Budgets ++
            [{ Month := m, Incomes := [], Expenses := [], Savings := 0, Balance := 0 }] }) :=
  ⟨AddBudget_present app m, AddBudget_absent app m⟩

theorem AddBudget_spec_witness :
    ((∃ b ∈ sampleApp.Budgets, b.Month = "2024-01") ∧
      sampleApp.AddBudget "2024-01" = sampleApp) ∧
    ((∀ b ∈ sampleApp.Budgets, b.Month ≠ "2024-03") ∧
      sampleApp.AddBudget "2024-03" =
        { FileName := sampleApp.FileName,
          Budgets := sampleApp.Budgets ++
            [{ Month := "2024-03", Incomes := [], Expenses := [], Savings := 0,
               Balance := 0 }] }) :=
  ⟨⟨by decide, (AddBudget_spec sampleApp "2024-01").1 (by decide)⟩,
   ⟨by decide, (AddBudget_spec sampleApp "2024-03").2 (by decide)⟩⟩

/-! ## Appending income and expenses -/

/-- A request that fails validation (an empty text, or a text on which
`strconv.ParseFloat` reports an error) ends with a validation status text and
the ledger as it was. -/
theorem validation_rejected (parseFloat : String → ParseFloatResult) (app : BudgetApp)
    (month source amount category budgeted actual : String) :
    ((month = "" ∨ source = "" ∨ amount = "" ∨ parseFloat amount = .invalid) →
      (addIncomeHandler parseFloat app month source amount =
          Outcome.status app "Please fill in all income fields" ∨
        addIncomeHandler parseFloat app month source amount =
          Outcome.status app "Invalid income amount")) ∧
    ((month = "" ∨ category = "" ∨ budgeted = "" ∨ actual = "" ∨
        parseFloat budgeted = .invalid ∨ parseFloat actual = .invalid) →
      (addExpenseHandler parseFloat app month category budgeted actual =
          Outcome.status app "Please fill in all expense fields" ∨
        addExpenseHandler parseFloat app month category budgeted actual =
          Outcome.status app "Invalid budgeted amount" ∨
        addExpenseHandler parseFloat app month category budgeted actual =
          Outcome.status app "Invalid actual amount")) := by
  constructor
  · intro h
    unfold addIncomeHandler
    by_cases hempty : month = "" ∨ source = "" ∨ amount = ""
    · rw [if_pos hempty]; exact Or.inl rfl
    · rw [if_neg hempty]
      have hparse : parseFloat amount = .invalid := by
        rcases h with h | h | h | h
        · exact absurd (Or.inl h) hempty
        · exact absurd (Or.inr (Or.inl h)) hempty
        · exact absurd (Or.inr (Or.inr h)) hempty
        · exact h
      rw [hparse]; exact Or.inr rfl
  · intro h
    unfold addExpenseHandler
    by_cases hempty : month = "" ∨ category = "" ∨ budgeted = "" ∨ actual = ""
    · rw [if_pos hempty]; exact Or.inl rfl
    · rw [if_neg hempty]
      have hparse : parseFloat budgeted = .invalid ∨ parseFloat actual = .invalid := by
        rcases h with h | h | h | h | h | h
        · exact absurd (Or.inl h) hempty
        · exact absurd (Or.inr (Or.inl h)) hempty
        · exact absurd (Or.inr (Or.inr (Or.inl h))) hempty
        · exact absurd (Or.inr (Or.inr (Or.inr h))) hempty
        · exact Or.inl h
        · exact Or.inr h
      cases hb : parseFloat budgeted with
      | invalid => exact Or.inr (Or.inl rfl)
      | finite v =>
        have ha : parseFloat actual = .invalid := by
          rcases hparse with h | h
          · rw [hb] at h; cases h
          · exact h
        simp [ha]
      | notFinite =>
        have ha : parseFloat actual = .invalid := by
          rcases hparse with h | h
          · rw [hb] at h; cases h
          · exact h
        simp [ha]

/-- An amount text that `strconv.ParseFloat` reads without error as a value
that is not a number passes the check of line 145: with every text filled in
and a budget of the month present, the income handler ends in the panic of
`SaveData`. -/
theorem addIncomeHandler_notFinite (parseFloat : String → ParseFloatResult) (app : BudgetApp)
    (month source amount : String) (h1 : month ≠ "") (h2 : source ≠ "") (h3 : amount ≠ "")
    (hparse : parseFloat amount = .notFinite) (hm : ∃ b ∈ app.Budgets, b.Month = month) :
    addIncomeHandler parseFloat app month source amount = Outcome.savePanic := by
  have hex : monthExists app.Budgets month = true := (monthExists_eq_true_iff _ _).mpr hm
  simp [addIncomeHandler, h1, h2, h3, hparse, hex]

/-- The expense handler ends in the panic of `SaveData` when every text is
filled in, neither amount text is refused by `strconv.ParseFloat`, one of them
is read as a value that is not a number, and a budget of the month is present. -/
theorem addExpenseHandler_notFinite (parseFloat : String → ParseFloatResult) (app : BudgetApp)
    (month category budgeted actual : String)
    (h1 : month ≠ "") (h2 : category ≠ "") (h3 : budgeted ≠ "") (h4 : actual ≠ "")
    (hb : parseFloat budgeted ≠ .invalid) (ha : parseFloat actual ≠ .invalid)
    (hparse : parseFloat budgeted = .notFinite ∨ parseFloat actual = .notFinite)
    (hm : ∃ b ∈ app.Budgets, b.Month = month) :
    addExpenseHandler parseFloat app month category budgeted actual = Outcome.savePanic := by
  have hex : monthExists app.Budgets month = true := (monthExists_eq_true_iff _ _).mpr hm
  unfold addExpenseHandler
  rw [if_neg (by simp [h1, h2, h3, h4])]
  cases hpb : parseFloat budgeted with
  | invalid => exact absurd hpb hb
  | finite v =>
    cases hpa : parseFloat actual with
    | invalid => exact absurd hpa ha
    | finite w =>
      rcases hparse with h | h
      · rw [hpb] at h; cases h
      · rw [hpa] at h; cases h
    | notFinite => simp [hex]
  | notFinite =>
    cases hpa : parseFloat actual with
    | invalid => exact absurd hpa ha
    | finite w => simp [hex]
    | notFinite => simp [hex]

/-- C5: for every ledger and every month `m` with no budget in it, and every
source, category and amounts, `AppendIncome` and `AppendExpense` answer with
the text "Budget for this month does not exist" and return the ledger exactly
as it was; the button handlers, for entry texts that pass validation (whether
the parsed values are numbers or not), give that same answer, and for any
entry texts return a status with the ledger as it was. -/
theorem append_absent_not_found (app : BudgetApp) (m : String)
    (h : ∀ b ∈ app.Budgets, b.Month ≠ m) :
    (∀ (source : String) (amount : ℚ),
      app.AppendIncome m source amount = (app, "Budget for this month does not exist")) ∧
    (∀ (category : String) (budgeted actual : ℚ),
      app.AppendExpense m category budgeted actual =
        (app, "Budget for this month does not exist")) ∧
    (∀ (parseFloat : String → ParseFloatResult) (source amount : String),
      m ≠ "" → source ≠ "" → amount ≠ "" → parseFloat amount ≠ .invalid →
      addIncomeHandler parseFloat app m source amount =
        Outcome.status app "Budget for this month does not exist") ∧
    (∀ (parseFloat : String → ParseFloatResult) (category budgeted actual : String),
      m ≠ "" → category ≠ "" → budgeted ≠ "" → actual ≠ "" →
      parseFloat budgeted ≠ .invalid → parseFloat actual ≠ .invalid →
      addExpenseHandler parseFloat app m category budgeted actual =
        Outcome.status app "Budget for this month does not exist") ∧
    (∀ (parseFloat : String → ParseFloatResult) (source amount : String),
      ∃ text, addIncomeHandler parseFloat app m source amount = Outcome.status app text) ∧
    (∀ (parseFloat : String → ParseFloatResult) (category budgeted actual : String),
      ∃ text, addExpenseHandler parseFloat app m category budgeted actual =
        Outcome.status app text) := by
  have hi := fun source amount => AppendIncome_absent app m source amount h
  have he := fun category budgeted actual =>
    AppendExpense_absent app m category budgeted actual h
  have hex : monthExists app.Budgets m = false := (monthExists_eq_false_iff _ _).mpr h
  have hinc : ∀ (parseFloat : String → ParseFloatResult) (source amount : String),
      ¬ (m = "" ∨ source = "" ∨ amount = "") → parseFloat amount ≠ .invalid →
      addIncomeHandler parseFloat app m source amount =
        Outcome.status app "Budget for this month does not exist" := by
    intro parseFloat source amount hne hp
    unfold addIncomeHandler
    rw [if_neg hne]
    cases hpa : parseFloat amount with
    | invalid => exact absurd hpa hp
    | finite v => simp [hi, notFoundMessage]
    | notFinite => simp [hex, notFoundMessage]
  have hexp : ∀ (parseFloat : String → ParseFloatResult) (category budgeted actual : String),
      ¬ (m = "" ∨ category = "" ∨ budgeted = "" ∨ actual = "") →
      parseFloat budgeted ≠ .invalid → parseFloat actual ≠ .invalid →
      addExpenseHandler parseFloat app m category budgeted actual =
        Outcome.status app "Budget for this month does not exist" := by
    intro parseFloat category budgeted actual hne hb ha
    unfold addExpenseHandler
    rw [if_neg hne]
    cases hpb : parseFloat budgeted with
    | invalid => exact absurd hpb hb
    | finite v =>
      cases hpa : parseFloat actual with
      | invalid => exact absurd hpa ha
      | finite w => simp [he, notFoundMessage]
      | notFinite => simp [hex, notFoundMessage]
    | notFinite =>
      cases hpa : parseFloat actual with
      | invalid => exact absurd hpa ha
      | finite w => simp [hex, notFoundMessage]
      | notFinite => simp [hex, notFoundMessage]
  refine ⟨hi, he, ?_, ?_, ?_, ?_⟩
  · intro parseFloat source amount h1 h2 h3 h4
    exact hinc parseFloat source amount (by simp [h1, h2, h3]) h4
  · intro parseFloat category budgeted actual h1 h2 h3 h4 h5 h6
    exact hexp parseFloat category budgeted actual (by simp [h1, h2, h3, h4]) h5 h6
  · intro parseFloat source amount
    by_cases hne : m = "" ∨ source = "" ∨ amount = ""
    · exact ⟨_, by unfold addIncomeHandler; rw [if_pos hne]⟩
    · by_cases hp : parseFloat amount = .invalid
      · exact ⟨_, by unfold addIncomeHandler; rw [if_neg hne, hp]⟩
      · exact ⟨_, hinc parseFloat source amount hne hp⟩
  · intro parseFloat category budgeted actual
    by_cases hne : m = "" ∨ category = "" ∨ budgeted = "" ∨ actual = ""
    · exact ⟨_, by unfold addExpenseHandler; rw [if_pos hne]⟩
    · by_cases hb : parseFloat budgeted = .invalid
      · exact ⟨_, by unfold addExpenseHandler; rw [if_neg hne, hb]⟩
      · by_cases ha : parseFloat actual = .invalid
        · refine ⟨"Invalid actual amount", ?_⟩
          unfold addExpenseHandler
          rw [if_neg hne]
          cases hpb : parseFloat budgeted with
          | invalid => exact absurd hpb hb
          | finite v => simp [ha]
          | notFinite => simp [ha]
        · exact ⟨_, hexp parseFloat category budgeted actual hne hb ha⟩

theorem append_absent_not_found_witness :
    (∀ b ∈ sampleApp.Budgets, b.Month ≠ "2024-03") ∧
    sampleApp.AppendIncome "2024-03" "Salary" 3000 =
      (sampleApp, "Budget for this month does not exist") ∧
    sampleApp.AppendExpense "2024-03" "Rent" 1200 1250 =
      (sampleApp, "Budget for this month does not exist") ∧
    addIncomeHandler sampleParseFloat sampleApp "2024-03" "Salary" "3000" =
      Outcome.status sampleApp "Budget for this month does not exist" ∧
    addIncomeHandler sampleParseFloat sampleApp "2024-03" "Salary" "NaN" =
      Outcome.status sampleApp "Budget for this month does not exist" ∧
    addExpenseHandler sampleParseFloat sampleApp "2024-03" "Rent" "3000" "12.5" =
      Outcome.status sampleApp "Budget for this month does not exist" :=
  have key := append_absent_not_found sampleApp "2024-03" (by decide)
  ⟨by decide, key.1 "Salary" 3000, key.2.1 "Rent" 1200 1250,
   key.2.2.1 sampleParseFloat "Salary" "3000" (by decide) (by decide) (by decide)
     (by simp [sampleParseFloat]),
   key.2.2.1 sampleParseFloat "Salary" "NaN" (by decide) (by decide) (by decide)
     (by simp [sampleParseFloat]),
   key.2.2.2.1 sampleParseFloat "Rent" "3000" "12.5" (by decide) (by decide)
     (by decide) (by decide) (by simp [sampleParseFloat]) (by simp [sampleParseFloat])⟩

/-- C8: the claim that an Add Income or Add Expense request whose amount
text does not parse as a number returns a status message and leaves the ledger
unchanged fails on the code for the texts that `strconv.ParseFloat` reads
without error as NaN or an infinity.  On the ledger left by
`AddBudget("2024-01")`, the income request with amount text "NaN" and the
expense requests with actual text "NaN" or budgeted text "Inf" pass the checks
of lines 145, 171 and 176, the item is appended and `SaveData` panics: the
handler returns no status, with any ledger and any text. -/
theorem nan_amount_passes_validation :
    addIncomeHandler sampleParseFloat sampleJanuary "2024-01" "Salary" "NaN" = Outcome.savePanic ∧
    (∀ (app : BudgetApp) (text : String),
      addIncomeHandler sampleParseFloat sampleJanuary "2024-01" "Salary" "NaN" ≠
        Outcome.status app text) ∧
    addExpenseHandler sampleParseFloat sampleJanuary "2024-01" "Rent" "3000" "NaN" =
      Outcome.savePanic ∧
    addExpenseHandler sampleParseFloat sampleJanuary "2024-01" "Rent" "Inf" "3000" =
      Outcome.savePanic ∧
    (∀ (app : BudgetApp) (text : String),
      addExpenseHandler sampleParseFloat sampleJanuary "2024-01" "Rent" "3000" "NaN" ≠
        Outcome.status app text) := by
  have hm : ∃ b ∈ sampleJanuary.Budgets, b.Month = "2024-01" := by decide
  have hinc : addIncomeHandler sampleParseFloat sampleJanuary "2024-01" "Salary" "NaN" =
      Outcome.savePanic :=
    addIncomeHandler_notFinite sampleParseFloat sampleJanuary "2024-01" "Salary" "NaN"
      (by decide) (by decide) (by decide) (by simp [sampleParseFloat]) hm
  have hexp : addExpenseHandler sampleParseFloat sampleJanuary "2024-01" "Rent" "3000" "NaN" =
      Outcome.savePanic :=
    addExpenseHandler_notFinite sampleParseFloat sampleJanuary "2024-01" "Rent" "3000" "NaN"
      (by decide) (by decide) (by decide) (by decide) (by simp [sampleParseFloat])
      (by simp [sampleParseFloat]) (Or.inr (by simp [sampleParseFloat])) hm
  have hexp2 : addExpenseHandler sampleParseFloat sampleJanuary "2024-01" "Rent" "Inf" "3000" =
      Outcome.savePanic :=
    addExpenseHandler_notFinite sampleParseFloat sampleJanuary "2024-01" "Rent" "Inf" "3000"
      (by decide) (by decide) (by decide) (by decide) (by simp [sampleParseFloat])
      (by simp [sampleParseFloat]) (Or.inl (by simp [sampleParseFloat])) hm
  refine ⟨hinc, ?_, hexp, hexp2, ?_⟩
  · intro app text hcontra
    rw [hinc] at hcontra
    cases hcontra
  · intro app text hcontra
    rw [hexp] at hcontra
    cases hcontra

/-- C10: for every ledger and every month `m` present in it, `AppendIncome`
succeeds and changes only the first budget whose month is `m`: the ledger
splits as `pre ++ b :: post` with no budget of month `m` in `pre`, and the
result is `pre ++ b2 :: post` where `b2` is `b` with the new income added as
the last element of its income sequence and its balance recomputed from the
new sequences, month, expenses and savings being those of `b`; `pre` and
`post` (which may hold further budgets of month `m`) are unchanged.  The same
holds for `AppendExpense` with the expense sequence. -/
theorem append_frame (app : BudgetApp) (m : String) (h : ∃ b ∈ app.Budgets, b.Month = m) :
    ∃ pre b post, app.Budgets = pre ++ b :: post ∧ b.Month = m ∧
      (∀ x ∈ pre, x.Month ≠ m) ∧
      (∀ (source : String) (amount : ℚ),
        app.AppendIncome m source amount =
          ({ FileName := app.FileName,
             Budgets := pre ++
               { Month := b.Month,
                 Incomes := b.Incomes ++ [(⟨source, amount⟩ : Income)],
                 Expenses := b.Expenses,
                 Savings := b.Savings,
                 Balance :=
                   ((b.Incomes ++ [(⟨source, amount⟩ : Income)]).map Income.Amount).sum
                     - (b.Expenses.map Expense.ActualAmount).sum - b.Savings } :: post },
           "Income added to " ++ m)) ∧
      (∀ (category : String) (budgeted actual : ℚ),
        app.AppendExpense m category budgeted actual =
          ({ FileName := app.FileName,
             Budgets := pre ++
               { Month := b.Month,
                 Incomes := b.Incomes,
                 Expenses := b.Expenses ++ [(⟨category, budgeted, actual⟩ : Expense)],
                 Savings := b.Savings,
                 Balance :=
                   (b.Incomes.map Income.Amount).sum
                     - ((b.Expenses ++ [(⟨category, budgeted, actual⟩ : Expense)]).map
                         Expense.ActualAmount).sum
                     - b.Savings } :: post },
           "Expense added to " ++ m)) := by
  obtain ⟨pre, b, post, hsplit, hb, hpre⟩ := exists_first_of_present app.Budgets m h
  obtain ⟨fileName, bs⟩ := app
  simp only at hsplit
  subst hsplit
  refine ⟨pre, b, post, rfl, hb, hpre, ?_, ?_⟩
  · intro source amount
    rw [AppendIncome_split fileName pre post b m source amount hb hpre]
    simp only [totalIncome_eq_sum, totalExpenses_eq_sum]
  · intro category budgeted actual
    rw [AppendExpense_split fileName pre post b m category budgeted actual hb hpre]
    simp only [totalIncome_eq_sum, totalExpenses_eq_sum]

theorem append_frame_witness :
    (∃ b ∈ sampleApp.Budgets, b.Month = "2024-01") ∧
    ∃ pre b post, sampleApp.Budgets = pre ++ b :: post ∧ b.Month = "2024-01" ∧
      (∀ x ∈ pre, x.Month ≠ "2024-01") ∧
      (∀ (source : String) (amount : ℚ),
        sampleApp.AppendIncome "2024-01" source amount =
          ({ FileName := sampleApp.FileName,
             Budgets := pre ++
               { Month := b.Month,
                 Incomes := b.Incomes ++ [(⟨source, amount⟩ : Income)],
                 Expenses := b.Expenses,
                 Savings := b.Savings,
                 Balance :=
                   ((b.Incomes ++ [(⟨source, amount⟩ : Income)]).map Income.Amount).sum
                     - (b.Expenses.map Expense.ActualAmount).sum - b.Savings } :: post },
           "Income added to " ++ "2024-01")) ∧
      (∀ (category : String) (budgeted actual : ℚ),
        sampleApp.AppendExpense "2024-01" category budgeted actual =
          ({ FileName := sampleApp.FileName,
             Budgets := pre ++
               { Month := b.Month,
                 Incomes := b.Incomes,
                 Expenses := b.Expenses ++ [(⟨category, budgeted, actual⟩ : Expense)],
                 Savings := b.Savings,
                 Balance :=
                   (b.Incomes.map Income.Amount).sum
                     - ((b.Expenses ++ [(⟨category, budgeted, actual⟩ : Expense)]).map
                         Expense.ActualAmount).sum
                     - b.Savings } :: post },
           "Expense added to " ++ "2024-01")) :=
  ⟨by decide, append_frame sampleApp "2024-01" (by decide)⟩

/-! ## Month uniqueness -/

/-- C6: a ledger with at most one budget per month still has at most one
budget per month after `AddBudget`, `AppendIncome`, `AppendExpense` or
`Recalculate` with any arguments, and every ledger reached from the empty
ledger by a finite sequence of these operations has pairwise distinct months. -/
theorem uniqueMonths_invariant :
    (∀ app : BudgetApp, UniqueMonths app →
      (∀ m : String, UniqueMonths (app.AddBudget m)) ∧
      (∀ (m source : String) (amount : ℚ), UniqueMonths (app.AppendIncome m source amount).1) ∧
      (∀ (m category : String) (budgeted actual : ℚ),
        UniqueMonths (app.AppendExpense m category budgeted actual).1) ∧
      (∀ m : String, UniqueMonths (app.Recalculate m))) ∧
    (∀ (fileName : String) (ops : List Op),
      ((runOps (emptyApp fileName) ops).Budgets.map Budget.Month).Nodup) := by
  constructor
  · intro app h
    exact ⟨fun m => Op_run_uniqueMonths app (.addBudget m) h,
      fun m source amount => Op_run_uniqueMonths app (.appendIncome m source amount) h,
      fun m category budgeted actual =>
        Op_run_uniqueMonths app (.appendExpense m category budgeted actual) h,
      fun m => Op_run_uniqueMonths app (.recalculate m) h⟩
  · intro fileName ops
    exact runOps_uniqueMonths ops (emptyApp fileName) (by simp [UniqueMonths, emptyApp])

theorem uniqueMonths_invariant_witness :
    UniqueMonths ((emptyApp "budget.json").AddBudget "2024-01") ∧
    UniqueMonths (((emptyApp "budget.json").AddBudget "2024-01").AddBudget "2024-02") ∧
    UniqueMonths
      ((((emptyApp "budget.json").AddBudget "2024-01").AppendIncome "2024-01" "Salary" 3000).1) ∧
    UniqueMonths
      ((((emptyApp "budget.json").AddBudget "2024-01").AppendExpense
        "2024-01" "Rent" 1200 1250).1) ∧
    UniqueMonths (((emptyApp "budget.json").AddBudget "2024-01").Recalculate "2024-01") :=
  have hu : UniqueMonths ((emptyApp "budget.json").AddBudget "2024-01") := by decide
  have key := uniqueMonths_invariant.1 ((emptyApp "budget.json").AddBudget "2024-01") hu
  ⟨hu, key.1 "2024-02", key.2.1 "2024-01" "Salary" 3000, key.2.2.1 "2024-01" "Rent" 1200 1250,
   key.2.2.2 "2024-01"⟩

/-! ## Balance after a sequence of appends -/

/-- C1: starting from the empty ledger, after `AddBudget(m)` followed by
any finite sequence of `AppendIncome` and `AppendExpense` calls on any months,
the budget for month `m` exists, has savings 0, and has balance equal to the
sum of the amounts of the incomes appended to `m` minus the sum of the actual
amounts of the expenses appended to `m` minus its savings.  In particular
`AddBudget("2024-01")`, `AppendIncome("2024-01","Salary",3000)`,
`AppendExpense("2024-01","Rent",1200,1250)` gives balance 1750. -/
theorem balance_after_appends (fileName m : String) (calls : List Call) :
    (∃ b, findBudget (runCalls ((emptyApp fileName).AddBudget m) calls).Budgets m = some b ∧
      b.Savings = 0 ∧
      b.Balance = (incomeAmountsFor m calls).sum - (expenseActualsFor m calls).sum
        - b.Savings) ∧
    findBudget
      (runCalls ((emptyApp "budget.json").AddBudget "2024-01")
        [Call.income "2024-01" "Salary" 3000,
         Call.expense "2024-01" "Rent" 1200 1250]).Budgets "2024-01" =
      some { Month := "2024-01", Incomes := [{ Source := "Salary", Amount := 3000 }],
             Expenses := [{ Category := "Rent", BudgetedAmount := 1200, ActualAmount := 1250 }],
             Savings := 0, Balance := 1750 } := by
  constructor
  · have hstart : (emptyApp fileName).AddBudget m =
        { FileName := fileName, Budgets := [newBudget m] } := by
      simp [emptyApp, BudgetApp.AddBudget, monthExists]
    obtain ⟨b2, h1, h2, h3, h4, h5, h6⟩ := runCalls_single fileName m calls (newBudget m) rfl
      (by simp [newBudget, totalIncome, totalExpenses])
    refine ⟨b2, ?_, h3, ?_⟩
    · rw [hstart, h1]
      simp [findBudget, h2]
    · rw [h6, totalIncome_eq_sum, totalExpenses_eq_sum, h4, h5]
      simp [newBudget]
  · simp [runCalls, Call.run, emptyApp, BudgetApp.AddBudget, monthExists, newBudget,
      BudgetApp.AppendIncome, BudgetApp.AppendExpense, appendIncomeLoop, appendExpenseLoop,
      BudgetApp.Recalculate, recalculateLoop, findBudget, totalIncome, totalExpenses]
    norm_num

end ZeroBasedBudget
